import Mathlib

/-!
Shallow embedding of `scripts/consensus.py` (clinical-trial eligibility
classification, multi-model majority voting) together with proofs of the
specification claims about it.

Python dictionaries are modelled as association lists (`List (key × value)`)
whose lookup takes the first matching key; `collections.Counter` is modelled
through the list of all (unnormalized) occurrences plus `List.count`, with the
key-iteration order captured by `firstKeys` (first-occurrence order, which is
the insertion order of a CPython dict).  Fallible Python code (statements that
can raise) is modelled with `Except String`, carrying the message of the raised
exception.  All numeric percentage arithmetic is modelled over `ℚ`, with
`round(x, 1)` modelled by exact rounding of `10*x` to an integer.
-/

namespace Consensus

/-- The fixed panel of model identifiers: `MODELS` in `scripts/consensus.py`. -/
def MODELS : List String := ["claude", "gpt5", "gemini", "deepseek", "grok"]

/-- Key-iteration order of `collections.Counter(l)` (equivalently, of a Python
`dict` or insertion-ordered set built by inserting the elements of `l` left to
right): each distinct element once, in order of first occurrence. -/
def firstKeys : List String → List String
  | [] => []
  | a :: l => a :: (firstKeys l).filter (fun b => b != a)

/-- Python `Counter(votes).most_common(1)[0]` from `calculate_consensus`: the
`(label, count)` pair with maximal count, ties broken toward the key that was
inserted first (CPython's `heapq.nlargest(1, items, key)` reduces to `max`,
whose ties go to the earliest element).  `none` models the `IndexError` raised
by the `[0]` access when the vote list is empty. -/
def most_common1 (votes : List String) : Option (String × Nat) :=
  match firstKeys votes with
  | [] => none
  | k :: ks =>
    some (ks.foldl (fun best k2 =>
      if best.2 < votes.count k2 then (k2, votes.count k2) else best)
      (k, votes.count k))

/-- Function `calculate_consensus(votes)` from `scripts/consensus.py`.  The
`Except.error` branch carries the message of the `IndexError` that
`vote_counts.most_common(1)[0]` raises on an empty list; the f-string
`f"{agreement_count}/{len(votes)}"` is modelled by string concatenation. -/
def calculate_consensus (votes : List String) :
    Except String (String × String × String) :=
  match most_common1 votes with
  | none => Except.error "list index out of range"
  | some mc =>
    let consensus_value := mc.1
    let agreement_count := mc.2
    let agreement_ratio := toString agreement_count ++ "/" ++ toString votes.length
    let flag := if 4 ≤ agreement_count then "🟢"
      else if agreement_count = 3 then "🟡"
      else "🔴"
    Except.ok (consensus_value, agreement_ratio, flag)

/-- Position of the first occurrence of `a` in a list (length of the list if
`a` does not occur). -/
def firstIdx (a : String) : List String → Nat
  | [] => 0
  | b :: l => if b = a then 0 else firstIdx a l + 1

theorem mem_firstKeys {b : String} : ∀ {l : List String}, b ∈ firstKeys l ↔ b ∈ l := by
  intro l
  induction l with
  | nil => simp [firstKeys]
  | cons a l ih =>
    by_cases hba : b = a
    · subst hba; simp [firstKeys]
    · simp [firstKeys, List.mem_filter, hba, ih, bne_iff_ne]

theorem firstKeys_ne_nil {l : List String} (h : l ≠ []) : firstKeys l ≠ [] := by
  cases l with
  | nil => exact absurd rfl h
  | cons a l => simp [firstKeys]

theorem nodup_firstKeys : ∀ l : List String, (firstKeys l).Nodup := by
  intro l
  induction l with
  | nil => simp [firstKeys]
  | cons a l ih =>
    refine List.nodup_cons.mpr ⟨?_, ih.filter _⟩
    simp [List.mem_filter]

theorem find?_filter_bne (p : String → Bool) (a : String) (hpa : p a = false) :
    ∀ l : List String, (l.filter (fun b => b != a)).find? p = l.find? p := by
  intro l
  induction l with
  | nil => rfl
  | cons c l ih =>
    by_cases hca : c = a
    · subst hca
      rw [List.filter_cons_of_neg (by simp), ih,
        List.find?_cons_of_neg _ (by simp [hpa])]
    · rw [List.filter_cons_of_pos (by simp [hca])]
      cases hpc : p c with
      | true => rw [List.find?_cons_of_pos _ hpc, List.find?_cons_of_pos _ hpc]
      | false =>
        rw [List.find?_cons_of_neg _ (by simp [hpc]),
          List.find?_cons_of_neg _ (by simp [hpc]), ih]

theorem find?_firstKeys (p : String → Bool) :
    ∀ l : List String, (firstKeys l).find? p = l.find? p := by
  intro l
  induction l with
  | nil => rfl
  | cons a l ih =>
    cases hpa : p a with
    | true =>
      show List.find? p (a :: _) = List.find? p (a :: l)
      rw [List.find?_cons_of_pos _ hpa, List.find?_cons_of_pos _ hpa]
    | false =>
      show List.find? p (a :: _) = List.find? p (a :: l)
      rw [List.find?_cons_of_neg _ (by simp [hpa]),
        List.find?_cons_of_neg _ (by simp [hpa]),
        find?_filter_bne p a hpa, ih]

/-- The maximal value of `f` over a list of keys (`0` on the empty list). -/
def maxCountF (f : String → Nat) : List String → Nat
  | [] => 0
  | a :: l => max (f a) (maxCountF f l)

theorem le_maxCountF (f : String → Nat) {k : String} :
    ∀ {l : List String}, k ∈ l → f k ≤ maxCountF f l := by
  intro l
  induction l with
  | nil => intro h; cases h
  | cons a l ih =>
    intro hk
    rcases List.mem_cons.mp hk with h | h
    · subst h; exact le_max_left _ _
    · exact le_trans (ih h) (le_max_right _ _)

/-- Scanning a list with "replace the current best key on a strictly larger
`f`-value" returns the first key attaining the maximal `f`-value. -/
theorem foldl_pick_find (f : String → Nat) :
    ∀ (ks : List String) (b : String),
      (b :: ks).find? (fun k => f k == maxCountF f (b :: ks)) =
        some (ks.foldl (fun w k => if f w < f k then k else w) b) := by
  intro ks
  induction ks with
  | nil =>
    intro b
    have h1 : maxCountF f [b] = f b := by simp [maxCountF]
    rw [h1]
    simp
  | cons k ks ih =>
    intro b
    by_cases hbk : f b < f k
    · have hfk : f k ≤ maxCountF f (k :: ks) := le_maxCountF f (List.mem_cons_self k ks)
      have hM : maxCountF f (b :: k :: ks) = maxCountF f (k :: ks) := by
        simp only [maxCountF] at hfk ⊢
        omega
      rw [hM]
      rw [List.find?_cons_of_neg]
      · simp only [List.foldl_cons]
        rw [if_pos hbk]
        exact ih k
      · simp only [beq_iff_eq]
        omega
    · have hkb : f k ≤ f b := le_of_not_lt hbk
      have hM : maxCountF f (b :: k :: ks) = maxCountF f (b :: ks) := by
        simp only [maxCountF]
        omega
      rw [hM]
      simp only [List.foldl_cons]
      rw [if_neg hbk]
      have hble : f b ≤ maxCountF f (b :: ks) := by
        simp only [maxCountF]
        exact le_max_left _ _
      by_cases hpb : f b = maxCountF f (b :: ks)
      · rw [List.find?_cons_of_pos _ (by simp [hpb])]
        have h2 := ih b
        rw [List.find?_cons_of_pos _ (by simp [hpb])] at h2
        exact h2
      · rw [List.find?_cons_of_neg _ (by simp only [beq_iff_eq]; omega),
          List.find?_cons_of_neg _ (by simp only [beq_iff_eq]; omega)]
        have h2 := ih b
        rw [List.find?_cons_of_neg _ (by simp only [beq_iff_eq]; omega)] at h2
        exact h2

/-- The `(label, count)`-pair fold used by `most_common1` carries exactly the
label chosen by the label-only fold, paired with its `f`-value. -/
theorem foldl_bestL (f : String → Nat) :
    ∀ (ks : List String) (b : String),
      ks.foldl (fun best k2 => if best.2 < f k2 then (k2, f k2) else best) (b, f b) =
        (ks.foldl (fun w k2 => if f w < f k2 then k2 else w) b,
          f (ks.foldl (fun w k2 => if f w < f k2 then k2 else w) b)) := by
  intro ks
  induction ks with
  | nil => intro b; rfl
  | cons k ks ih =>
    intro b
    simp only [List.foldl_cons]
    by_cases h : f b < f k
    · rw [if_pos h, if_pos h]
      exact ih k
    · rw [if_neg h, if_neg h]
      exact ih b

/-- Evaluating `most_common1` on a non-empty vote list returns the pair of some label `w`
with its exact occurrence count, and `w` is the first element of `votes`
attaining the maximal count over the distinct keys. -/
theorem most_common1_spec (votes : List String) (hne : votes ≠ []) :
    ∃ w, most_common1 votes = some (w, votes.count w) ∧
      votes.find?
        (fun k => votes.count k ==
          maxCountF (fun s => votes.count s) (firstKeys votes)) = some w := by
  obtain ⟨k, ks, hks⟩ : ∃ k ks, firstKeys votes = k :: ks := by
    cases h : firstKeys votes with
    | nil => exact absurd h (firstKeys_ne_nil hne)
    | cons k ks => exact ⟨k, ks, rfl⟩
  refine ⟨ks.foldl (fun w k2 => if votes.count w < votes.count k2 then k2 else w) k,
    ?_, ?_⟩
  · simp only [most_common1, hks]
    rw [foldl_bestL (fun s => votes.count s) ks k]
  · rw [← find?_firstKeys, hks]
    exact foldl_pick_find (fun s => votes.count s) ks k

/-- A successful `find?` result sits at the earliest first-occurrence position
among all elements satisfying the predicate. -/
theorem find?_firstIdx_le (p : String → Bool) :
    ∀ {l : List String} {w : String}, l.find? p = some w →
      ∀ u : String, p u = true → firstIdx w l ≤ firstIdx u l := by
  intro l
  induction l with
  | nil => intro w h; cases h
  | cons c l ih =>
    intro w h u hu
    cases hpc : p c with
    | true =>
      rw [List.find?_cons_of_pos _ hpc] at h
      cases h
      simp [firstIdx]
    | false =>
      rw [List.find?_cons_of_neg _ (by simp [hpc])] at h
      have hwc : c ≠ w := by
        intro he
        subst he
        rw [List.find?_some h] at hpc
        cases hpc
      have huc : c ≠ u := by
        intro he
        subst he
        rw [hu] at hpc
        cases hpc
      simp only [firstIdx, if_neg hwc, if_neg huc]
      exact Nat.succ_le_succ (ih h u hu)

/-- On `calculate_consensus votes = Except.ok (w, r, fl)`, recover the shape of
each component: `w` is the `most_common1` label, its stored count is
`votes.count w`, and `r` and `fl` are computed from that count. -/
theorem calculate_consensus_ok_elim {votes : List String} {w r fl : String}
    (h : calculate_consensus votes = Except.ok (w, r, fl)) :
    most_common1 votes = some (w, votes.count w) ∧
      r = toString (votes.count w) ++ "/" ++ toString votes.length ∧
      fl = (if 4 ≤ votes.count w then "🟢"
        else if votes.count w = 3 then "🟡" else "🔴") := by
  have hne : votes ≠ [] := by
    intro hv
    subst hv
    simp [calculate_consensus, most_common1, firstKeys] at h
  obtain ⟨w0, hmc, -⟩ := most_common1_spec votes hne
  simp only [calculate_consensus, hmc, Except.ok.injEq, Prod.mk.injEq] at h
  obtain ⟨hw, hr, hf⟩ := h
  subst hw
  exact ⟨hmc, hr.symm, hf.symm⟩

/-- Claim C1: on every non-empty vote list, `calculate_consensus` returns a
label whose occurrence count is maximal, and among tied maximal labels it
returns the one whose first occurrence comes earliest in the input sequence;
in particular on `["B", "A", "A", "B", "C"]` it returns `"B"`. -/
theorem calculate_consensus_plurality_tiebreak (votes : List String)
    (hne : votes ≠ []) :
    (∃ w r fl, calculate_consensus votes = Except.ok (w, r, fl) ∧
        w ∈ votes ∧
        (∀ u ∈ votes, votes.count u ≤ votes.count w) ∧
        (∀ u : String, votes.count u = votes.count w →
          firstIdx w votes ≤ firstIdx u votes)) ∧
      calculate_consensus ["B", "A", "A", "B", "C"] =
        Except.ok ("B", "2/5", "🔴") := by
  refine ⟨?_, rfl⟩
  obtain ⟨w, hmc, hfind⟩ := most_common1_spec votes hne
  have hpw := List.find?_some hfind
  have hwM : votes.count w =
      maxCountF (fun s => votes.count s) (firstKeys votes) := eq_of_beq hpw
  have hwmem : w ∈ votes := List.mem_of_find?_eq_some hfind
  refine ⟨w, toString (votes.count w) ++ "/" ++ toString votes.length,
    (if 4 ≤ votes.count w then "🟢" else if votes.count w = 3 then "🟡" else "🔴"),
    ?_, hwmem, ?_, ?_⟩
  · simp only [calculate_consensus, hmc]
  · intro u hu
    have hu2 : u ∈ firstKeys votes := mem_firstKeys.mpr hu
    calc votes.count u ≤ maxCountF (fun s => votes.count s) (firstKeys votes) :=
        le_maxCountF (fun s => votes.count s) hu2
      _ = votes.count w := hwM.symm
  · intro u hcu
    refine find?_firstIdx_le _ hfind u ?_
    have : votes.count u =
        maxCountF (fun s => votes.count s) (firstKeys votes) := hcu.trans hwM
    exact beq_iff_eq.mpr this

theorem calculate_consensus_plurality_tiebreak_w :
    (["A"] ≠ ([] : List String)) ∧
      ((∃ w r fl, calculate_consensus ["A"] = Except.ok (w, r, fl) ∧
          w ∈ ["A"] ∧
          (∀ u ∈ ["A"], List.count u ["A"] ≤ List.count w ["A"]) ∧
          (∀ u : String, List.count u ["A"] = List.count w ["A"] →
            firstIdx w ["A"] ≤ firstIdx u ["A"])) ∧
        calculate_consensus ["B", "A", "A", "B", "C"] =
          Except.ok ("B", "2/5", "🔴")) :=
  ⟨by decide, calculate_consensus_plurality_tiebreak ["A"] (by decide)⟩

/-- Claim C2: for every vote list accepted by `calculate_consensus`, the
returned confidence flag is a function of the plurality count alone, with the
fixed thresholds `count ≥ 4 → 🟢`, `count = 3 → 🟡`, `count ≤ 2 → 🔴` (the
final `else` branch); any two results with equal plurality counts carry equal
flags regardless of the number of votes cast, and a 3-vote list with all three
agreeing yields `🟡` (MEDIUM), not `🟢`. -/
theorem calculate_consensus_flag_thresholds (votes : List String)
    (w r fl : String) (h : calculate_consensus votes = Except.ok (w, r, fl)) :
    fl = (if 4 ≤ votes.count w then "🟢"
        else if votes.count w = 3 then "🟡" else "🔴") ∧
      (∀ (votes2 : List String) (w2 r2 fl2 : String),
        calculate_consensus votes2 = Except.ok (w2, r2, fl2) →
        votes2.count w2 = votes.count w → fl2 = fl) ∧
      calculate_consensus ["A", "A", "A"] = Except.ok ("A", "3/3", "🟡") := by
  obtain ⟨-, -, hf⟩ := calculate_consensus_ok_elim h
  refine ⟨hf, ?_, rfl⟩
  intro votes2 w2 r2 fl2 h2 hc
  obtain ⟨-, -, hf2⟩ := calculate_consensus_ok_elim h2
  rw [hf2, hc, hf]

theorem calculate_consensus_flag_thresholds_w :
    calculate_consensus ["A", "A", "A"] = Except.ok ("A", "3/3", "🟡") ∧
      (("🟡" : String) = (if 4 ≤ List.count "A" ["A", "A", "A"] then "🟢"
          else if List.count "A" ["A", "A", "A"] = 3 then "🟡" else "🔴") ∧
        (∀ (votes2 : List String) (w2 r2 fl2 : String),
          calculate_consensus votes2 = Except.ok (w2, r2, fl2) →
          votes2.count w2 = List.count "A" ["A", "A", "A"] → fl2 = "🟡") ∧
        calculate_consensus ["A", "A", "A"] = Except.ok ("A", "3/3", "🟡")) :=
  ⟨rfl, calculate_consensus_flag_thresholds ["A", "A", "A"] "A" "3/3" "🟡" rfl⟩

/-- Claim C3, counterexample: on the empty vote list the code fails through the
generic `IndexError` of `most_common(1)[0]` (message
`"list index out of range"`), which is not an explicitly raised `"no votes"`
error. -/
theorem calculate_consensus_empty_counterexample :
    calculate_consensus [] = Except.error "list index out of range" ∧
      "list index out of range" ≠ "no votes" := ⟨rfl, by decide⟩

/-- Claim C3 (amended): `calculate_consensus` on the empty vote list never
returns a default verdict: it fails fast, propagating an error synchronously
to the caller — but the error is the generic `IndexError` raised by indexing
the empty `most_common` list, not an explicitly raised `"no votes"` error. -/
theorem calculate_consensus_empty_fails :
    (∀ v : String × String × String, calculate_consensus [] ≠ Except.ok v) ∧
      calculate_consensus [] = Except.error "list index out of range" := by
  refine ⟨?_, rfl⟩
  intro v hv
  rw [show calculate_consensus [] = Except.error "list index out of range"
    from rfl] at hv
  cases hv

/-- Claim C4: the agreement-ratio string is the plurality count over the
number of votes actually present in the input list (not the nominal panel
size); in particular the all-but-one example yields `"4/5"` with flag `🟢`. -/
theorem calculate_consensus_ratio_denominator (votes : List String)
    (w r fl : String) (h : calculate_consensus votes = Except.ok (w, r, fl)) :
    r = toString (votes.count w) ++ "/" ++ toString votes.length ∧
      calculate_consensus ["X", "X", "Y", "X", "X"] =
        Except.ok ("X", "4/5", "🟢") := by
  obtain ⟨-, hr, -⟩ := calculate_consensus_ok_elim h
  exact ⟨hr, rfl⟩

theorem calculate_consensus_ratio_denominator_w :
    calculate_consensus ["X", "X", "Y", "X", "X"] =
        Except.ok ("X", "4/5", "🟢") ∧
      (("4/5" : String) =
          toString (List.count "X" ["X", "X", "Y", "X", "X"]) ++ "/" ++
            toString (List.length ["X", "X", "Y", "X", "X"]) ∧
        calculate_consensus ["X", "X", "Y", "X", "X"] =
          Except.ok ("X", "4/5", "🟢")) :=
  ⟨rfl, calculate_consensus_ratio_denominator ["X", "X", "Y", "X", "X"]
    "X" "4/5" "🟢" rfl⟩

/-- Lexicographic comparison of character lists by code point: the order in
which Python compares strings (`s1 <= s2`), used by `sorted(...)`. -/
def lexLe : List Char → List Char → Bool
  | [], _ => true
  | _ :: _, [] => false
  | c :: cs, d :: ds =>
    if c.toNat < d.toNat then true
    else if c.toNat = d.toNat then lexLe cs ds
    else false

/-- Comparison `a <= b` on strings as Python evaluates it (code-point lexicographic). -/
def pyLe (a b : String) : Bool := lexLe a.data b.data

/-- The string order used to model `sorted(...)`. -/
def pyLeRel (a b : String) : Prop := pyLe a b = true

instance : DecidableRel pyLeRel :=
  fun a b => inferInstanceAs (Decidable (pyLe a b = true))

theorem char_toNat_inj {c d : Char} (h : c.toNat = d.toNat) : c = d := by
  have h2 := congrArg Char.ofNat h
  rwa [Char.ofNat_toNat, Char.ofNat_toNat] at h2

theorem lexLe_cons_iff {a b : Char} {as bs : List Char} :
    lexLe (a :: as) (b :: bs) = true ↔
      (a.toNat < b.toNat ∨ (a.toNat = b.toNat ∧ lexLe as bs = true)) := by
  simp only [lexLe]
  split_ifs with h1 h2
  · simp [h1]
  · simp [h1, h2]
  · simp [h1, h2]

theorem lexLe_total : ∀ cs ds : List Char,
    lexLe cs ds = true ∨ lexLe ds cs = true := by
  intro cs
  induction cs with
  | nil => intro ds; left; rfl
  | cons c cs ih =>
    intro ds
    cases ds with
    | nil => right; rfl
    | cons d ds =>
      rcases Nat.lt_trichotomy c.toNat d.toNat with h | h | h
      · left
        rw [lexLe_cons_iff]
        exact Or.inl h
      · rcases ih ds with h2 | h2
        · left
          rw [lexLe_cons_iff]
          exact Or.inr ⟨h, h2⟩
        · right
          rw [lexLe_cons_iff]
          exact Or.inr ⟨h.symm, h2⟩
      · right
        rw [lexLe_cons_iff]
        exact Or.inl h

theorem lexLe_trans : ∀ as bs cs : List Char,
    lexLe as bs = true → lexLe bs cs = true → lexLe as cs = true := by
  intro as
  induction as with
  | nil => intro bs cs h1 h2; rfl
  | cons a as ih =>
    intro bs cs h1 h2
    cases bs with
    | nil => simp [lexLe] at h1
    | cons b bs =>
      cases cs with
      | nil => simp [lexLe] at h2
      | cons c cs =>
        rw [lexLe_cons_iff] at h1 h2 ⊢
        rcases h1 with h1 | ⟨h1e, h1t⟩
        · rcases h2 with h2 | ⟨h2e, h2t⟩
          · exact Or.inl (by omega)
          · exact Or.inl (by omega)
        · rcases h2 with h2 | ⟨h2e, h2t⟩
          · exact Or.inl (by omega)
          · exact Or.inr ⟨by omega, ih bs cs h1t h2t⟩

theorem lexLe_antisymm : ∀ as bs : List Char,
    lexLe as bs = true → lexLe bs as = true → as = bs := by
  intro as
  induction as with
  | nil =>
    intro bs h1 h2
    cases bs with
    | nil => rfl
    | cons b bs => simp [lexLe] at h2
  | cons a as ih =>
    intro bs h1 h2
    cases bs with
    | nil => simp [lexLe] at h1
    | cons b bs =>
      rw [lexLe_cons_iff] at h1 h2
      rcases h1 with h1 | ⟨h1e, h1t⟩
      · rcases h2 with h2 | ⟨h2e, h2t⟩
        · omega
        · omega
      · rcases h2 with h2 | ⟨h2e, h2t⟩
        · omega
        · rw [char_toNat_inj h1e, ih bs h1t h2t]

instance : IsTotal String pyLeRel :=
  ⟨fun a b => lexLe_total a.data b.data⟩

instance : IsTrans String pyLeRel :=
  ⟨fun a b c => lexLe_trans a.data b.data c.data⟩

instance : IsAntisymm String pyLeRel :=
  ⟨fun a b h1 h2 => congrArg String.mk (lexLe_antisymm a.data b.data h1 h2)⟩

/-- Python `cat.lower()`: lower-case every character (ASCII case mapping, as used by
the pipeline's label strings). -/
def pyLower (s : String) : String := ⟨s.data.map Char.toLower⟩

/-- Python `cat.strip()`: remove leading and trailing whitespace characters. -/
def pyStrip (s : String) : String :=
  ⟨((s.data.dropWhile Char.isWhitespace).reverse.dropWhile
    Char.isWhitespace).reverse⟩

/-- The normalization `cat.lower().strip()` applied to every proposal inside
`merge_umbrella_proposals`. -/
def normalizeCat (cat : String) : String := pyStrip (pyLower cat)

/-- All normalized proposals of all models in iteration order: the stream of
`category_counts[normalized] += 1` updates performed by
`merge_umbrella_proposals`, so that `category_counts[c] = count c` of this
list and the counter's keys iterate as `firstKeys` of this list. -/
def allNormalized (model_proposals : List (String × List String)) :
    List String :=
  (model_proposals.map (fun p => p.2.map normalizeCat)).flatten

/-- Function `merge_umbrella_proposals(model_proposals, threshold)` from
`scripts/consensus.py`: count normalized proposals across all models combined,
keep the counter keys whose count reaches the threshold (iterating keys in
insertion order), and return them sorted. -/
def merge_umbrella_proposals (model_proposals : List (String × List String))
    (threshold : Nat) : List String :=
  let category_counts := allNormalized model_proposals
  let unified := (firstKeys category_counts).filter
    (fun cat => decide (threshold ≤ category_counts.count cat))
  List.insertionSort pyLeRel unified

theorem merge_unfold (model_proposals : List (String × List String))
    (threshold : Nat) :
    merge_umbrella_proposals model_proposals threshold =
      List.insertionSort pyLeRel
        ((firstKeys (allNormalized model_proposals)).filter
          (fun cat => decide (threshold ≤
            (allNormalized model_proposals).count cat))) := rfl

/-- Claim C5: `merge_umbrella_proposals` returns exactly the sorted,
duplicate-free list of those normalized (lower-cased, whitespace-trimmed)
proposal strings whose total occurrence count summed over all models' lists
reaches the threshold, counting repeats from the same model; in particular the
documented four-model example at threshold 3 yields `["foo"]`. -/
theorem merge_umbrella_proposals_spec
    (model_proposals : List (String × List String)) (threshold : Nat) :
    ((merge_umbrella_proposals model_proposals threshold).Sorted pyLeRel ∧
      (merge_umbrella_proposals model_proposals threshold).Nodup ∧
      ∀ s : String,
        s ∈ merge_umbrella_proposals model_proposals threshold ↔
          (s ∈ allNormalized model_proposals ∧
            threshold ≤ (allNormalized model_proposals).count s)) ∧
    merge_umbrella_proposals
      [("a", ["Foo"]), ("b", ["foo "]), ("c", ["FOO"]), ("d", ["bar"])] 3 =
      ["foo"] := by
  refine ⟨⟨?_, ?_, ?_⟩, rfl⟩
  · rw [merge_unfold]
    exact List.sorted_insertionSort _ _
  · rw [merge_unfold]
    exact ((List.perm_insertionSort _ _).nodup_iff).mpr
      ((nodup_firstKeys _).filter _)
  · intro s
    rw [merge_unfold]
    simp [List.mem_filter, mem_firstKeys]

/-- Two duplicate-free lists with the same members are permutations of each
other. -/
theorem perm_of_nodup_mem_iff {l1 l2 : List String} (h1 : l1.Nodup)
    (h2 : l2.Nodup) (hm : ∀ a, a ∈ l1 ↔ a ∈ l2) : l1.Perm l2 := by
  rw [List.perm_iff_count]
  intro a
  by_cases ha : a ∈ l1
  · rw [List.count_eq_one_of_mem h1 ha,
      List.count_eq_one_of_mem h2 ((hm a).mp ha)]
  · rw [List.count_eq_zero_of_not_mem ha,
      List.count_eq_zero_of_not_mem (fun hb => ha ((hm a).mpr hb))]

/-- Claim C9: `merge_umbrella_proposals` is order-independent with respect to
the enumeration order of its input mapping: permuting the (source, proposals)
entries leaves the returned list identical. -/
theorem merge_umbrella_proposals_order_independent
    (props1 props2 : List (String × List String)) (threshold : Nat)
    (hperm : props1.Perm props2) :
    merge_umbrella_proposals props1 threshold =
      merge_umbrella_proposals props2 threshold := by
  have hnorm : (allNormalized props1).Perm (allNormalized props2) := by
    show ((props1.map (fun p => p.2.map normalizeCat)).flatten).Perm
      ((props2.map (fun p => p.2.map normalizeCat)).flatten)
    exact (hperm.map _).flatten
  have hu : ((firstKeys (allNormalized props1)).filter
        (fun cat => decide (threshold ≤ (allNormalized props1).count cat))).Perm
      ((firstKeys (allNormalized props2)).filter
        (fun cat => decide (threshold ≤ (allNormalized props2).count cat))) := by
    refine perm_of_nodup_mem_iff ((nodup_firstKeys _).filter _)
      ((nodup_firstKeys _).filter _) ?_
    intro a
    simp only [List.mem_filter, mem_firstKeys, decide_eq_true_eq,
      hnorm.mem_iff, hnorm.count_eq a]
  rw [merge_unfold, merge_unfold]
  exact List.eq_of_perm_of_sorted
    (((List.perm_insertionSort _ _).trans hu).trans
      (List.perm_insertionSort _ _).symm)
    (List.sorted_insertionSort _ _) (List.sorted_insertionSort _ _)

theorem merge_umbrella_proposals_order_independent_w :
    ([("a", ["x"]), ("b", ["y"])] : List (String × List String)).Perm
        [("b", ["y"]), ("a", ["x"])] ∧
      merge_umbrella_proposals [("a", ["x"]), ("b", ["y"])] 1 =
        merge_umbrella_proposals [("b", ["y"]), ("a", ["x"])] 1 :=
  ⟨by decide, merge_umbrella_proposals_order_independent
    [("a", ["x"]), ("b", ["y"])] [("b", ["y"]), ("a", ["x"])] 1 (by decide)⟩

/-- A row of the phase-2 consensus DataFrame: the dict
`{'trait': ..., 'umbrella': ..., 'agreement': ..., 'flag': ..., **model_votes}`
built by `aggregate_phase2_results`, with the spread `model_votes` kept as the
per-model vote snapshot in `MODELS` order. -/
structure Phase2Row where
  trait : String
  umbrella : String
  agreement : String
  flag : String
  model_votes : List (String × Option String)
deriving DecidableEq

/-- A row of the phase-3 consensus DataFrame: the dict
`{'umbrella': ..., 'final_category': ..., 'agreement': ..., 'flag': ...,
**model_votes}` built by `aggregate_phase3_results`. -/
structure Phase3Row where
  umbrella : String
  final_category : String
  agreement : String
  flag : String
  model_votes : List (String × Option String)
deriving DecidableEq

/-- First-match lookup in an association list, modelling the Python dict
access `d[k]` guarded by `k in d` (`none` when the key is absent). -/
def dictGet? {β : Type} (d : List (String × β)) (k : String) : Option β :=
  (d.find? (fun p => p.1 == k)).map (fun p => p.2)

/-- Python `model_results[model][item]` guarded by
`model in model_results and item in model_results[model]`. -/
def modelVote (model_results : List (String × List (String × String)))
    (model item : String) : Option String :=
  match dictGet? model_results model with
  | none => none
  | some results => dictGet? results item

/-- The concatenation of every source's item keys.  The union set
`all_traits` (resp. `all_umbrellas`) built by the `all_traits.update(...)`
loop is `firstKeys` of this list, and the aggregators iterate it as
`sorted(all_traits)`. -/
def allItemKeys (model_results : List (String × List (String × String))) :
    List String :=
  (model_results.map (fun p => p.2.map (fun q => q.1))).flatten

/-- The per-item loop body of `aggregate_phase2_results`: build the
per-model vote snapshot and the present-vote list over the fixed `MODELS`
panel, and emit a row only when `if votes:` holds (non-empty). -/
def phase2Row (model_results : List (String × List (String × String)))
    (trait : String) : Option Phase2Row :=
  let model_votes := MODELS.map (fun m => (m, modelVote model_results m trait))
  let votes := model_votes.filterMap (fun p => p.2)
  match calculate_consensus votes with
  | Except.error _ => none
  | Except.ok (consensus, agreement, flag) =>
    some ⟨trait, consensus, agreement, flag, model_votes⟩

/-- Function `aggregate_phase2_results(model_results)` from `scripts/consensus.py`,
the resulting DataFrame modelled as its list of rows. -/
def aggregate_phase2_results
    (model_results : List (String × List (String × String))) :
    List Phase2Row :=
  (List.insertionSort pyLeRel
    (firstKeys (allItemKeys model_results))).filterMap
    (phase2Row model_results)

/-- The per-item loop body of `aggregate_phase3_results` (same algorithm as
`phase2Row`, different field names). -/
def phase3Row (model_results : List (String × List (String × String)))
    (umbrella : String) : Option Phase3Row :=
  let model_votes :=
    MODELS.map (fun m => (m, modelVote model_results m umbrella))
  let votes := model_votes.filterMap (fun p => p.2)
  match calculate_consensus votes with
  | Except.error _ => none
  | Except.ok (consensus, agreement, flag) =>
    some ⟨umbrella, consensus, agreement, flag, model_votes⟩

/-- Function `aggregate_phase3_results(model_results)` from `scripts/consensus.py`. -/
def aggregate_phase3_results
    (model_results : List (String × List (String × String))) :
    List Phase3Row :=
  (List.insertionSort pyLeRel
    (firstKeys (allItemKeys model_results))).filterMap
    (phase3Row model_results)

/-- The present-vote list assembled for one item: each panel model's vote in
`MODELS` order, absences skipped. -/
def votesFor (model_results : List (String × List (String × String)))
    (item : String) : List String :=
  MODELS.filterMap (fun m => modelVote model_results m item)

/-- Whether at least one panel model voted on this item (the `if votes:`
test). -/
def hasVotes (model_results : List (String × List (String × String)))
    (item : String) : Bool :=
  decide (votesFor model_results item ≠ [])

theorem calculate_consensus_ok_exists (votes : List String) (hne : votes ≠ []) :
    ∃ c a f, calculate_consensus votes = Except.ok (c, a, f) := by
  obtain ⟨w, hmc, -⟩ := most_common1_spec votes hne
  exact ⟨w, toString (votes.count w) ++ "/" ++ toString votes.length,
    (if 4 ≤ votes.count w then "🟢"
      else if votes.count w = 3 then "🟡" else "🔴"),
    by simp only [calculate_consensus, hmc]⟩

theorem phase2Row_unfold (mr : List (String × List (String × String)))
    (t : String) :
    phase2Row mr t =
      match calculate_consensus (votesFor mr t) with
      | Except.error _ => none
      | Except.ok (c, a, f) =>
        some ⟨t, c, a, f, MODELS.map (fun m => (m, modelVote mr m t))⟩ := by
  show (match calculate_consensus
      ((MODELS.map (fun m => (m, modelVote mr m t))).filterMap
        (fun p => p.2)) with
    | Except.error _ => (none : Option Phase2Row)
    | Except.ok (c, a, f) =>
      some (Phase2Row.mk t c a f
        (MODELS.map (fun m => (m, modelVote mr m t))))) = _
  rw [List.filterMap_map]
  rfl

theorem phase3Row_unfold (mr : List (String × List (String × String)))
    (t : String) :
    phase3Row mr t =
      match calculate_consensus (votesFor mr t) with
      | Except.error _ => none
      | Except.ok (c, a, f) =>
        some ⟨t, c, a, f, MODELS.map (fun m => (m, modelVote mr m t))⟩ := by
  show (match calculate_consensus
      ((MODELS.map (fun m => (m, modelVote mr m t))).filterMap
        (fun p => p.2)) with
    | Except.error _ => (none : Option Phase3Row)
    | Except.ok (c, a, f) =>
      some (Phase3Row.mk t c a f
        (MODELS.map (fun m => (m, modelVote mr m t))))) = _
  rw [List.filterMap_map]
  rfl

theorem phase2Row_trait_eq (mr : List (String × List (String × String)))
    (t : String) :
    (phase2Row mr t).map Phase2Row.trait =
      if hasVotes mr t then some t else none := by
  rw [phase2Row_unfold]
  by_cases h : votesFor mr t = []
  · rw [h]
    simp [hasVotes, h, calculate_consensus, most_common1, firstKeys]
  · obtain ⟨c, a, f, hok⟩ := calculate_consensus_ok_exists _ h
    rw [hok]
    simp [hasVotes, h]

theorem phase3Row_umbrella_eq (mr : List (String × List (String × String)))
    (t : String) :
    (phase3Row mr t).map Phase3Row.umbrella =
      if hasVotes mr t then some t else none := by
  rw [phase3Row_unfold]
  by_cases h : votesFor mr t = []
  · rw [h]
    simp [hasVotes, h, calculate_consensus, most_common1, firstKeys]
  · obtain ⟨c, a, f, hok⟩ := calculate_consensus_ok_exists _ h
    rw [hok]
    simp [hasVotes, h]

theorem filterMap_map_eq_filter {β : Type} (g : String → Option β)
    (h : β → String) (p : String → Bool)
    (hg : ∀ a, (g a).map h = if p a then some a else none) :
    ∀ l : List String, (l.filterMap g).map h = l.filter p := by
  intro l
  induction l with
  | nil => rfl
  | cons a l ih =>
    cases hga : g a with
    | none =>
      have h1 := hg a
      rw [hga] at h1
      have hpa : p a = false := by
        cases hp : p a
        · rfl
        · rw [hp] at h1
          simp at h1
      rw [List.filterMap_cons_none hga, ih,
        List.filter_cons_of_neg (by simp [hpa])]
    | some b =>
      have h1 := hg a
      rw [hga] at h1
      cases hp : p a
      · rw [hp] at h1
        simp at h1
      · rw [hp] at h1
        simp at h1
        rw [List.filterMap_cons_some hga, List.map_cons, ih,
          List.filter_cons_of_pos (by rw [hp]), h1]

theorem length_filter_partition (p : String → Bool) :
    ∀ l : List String,
      (l.filter p).length + (l.filter (fun a => !(p a))).length = l.length := by
  intro l
  induction l with
  | nil => rfl
  | cons a l ih =>
    cases hp : p a <;>
      simp [List.filter_cons, hp] <;>
      omega

theorem phase2Row_some_elim {mr : List (String × List (String × String))}
    {t : String} {row : Phase2Row} (h : phase2Row mr t = some row) :
    row.trait = t ∧
      row.model_votes = MODELS.map (fun m => (m, modelVote mr m t)) := by
  rw [phase2Row_unfold] at h
  by_cases hv : votesFor mr t = []
  · rw [hv] at h
    simp [calculate_consensus, most_common1, firstKeys] at h
  · obtain ⟨c, a, f, hok⟩ := calculate_consensus_ok_exists _ hv
    rw [hok] at h
    injection h with h2
    subst h2
    exact ⟨rfl, rfl⟩

theorem phase3Row_some_elim {mr : List (String × List (String × String))}
    {t : String} {row : Phase3Row} (h : phase3Row mr t = some row) :
    row.umbrella = t ∧
      row.model_votes = MODELS.map (fun m => (m, modelVote mr m t)) := by
  rw [phase3Row_unfold] at h
  by_cases hv : votesFor mr t = []
  · rw [hv] at h
    simp [calculate_consensus, most_common1, firstKeys] at h
  · obtain ⟨c, a, f, hok⟩ := calculate_consensus_ok_exists _ hv
    rw [hok] at h
    injection h with h2
    subst h2
    exact ⟨rfl, rfl⟩

theorem phase2Row_none (mr : List (String × List (String × String)))
    (t : String) (hv : votesFor mr t = []) : phase2Row mr t = none := by
  rw [phase2Row_unfold, hv]
  rfl

theorem phase3Row_none (mr : List (String × List (String × String)))
    (t : String) (hv : votesFor mr t = []) : phase3Row mr t = none := by
  rw [phase3Row_unfold, hv]
  rfl

/-- Claim C6: both phase aggregators emit exactly one row per distinct item
key that received at least one panel vote, in lexicographically sorted
item-key order (the traits/umbrellas of the emitted rows are precisely the
sorted distinct keys filtered to those with votes); the row count is the
number of distinct observed item keys minus those with zero present votes;
and every row records each panel source's original vote, `none` standing for
a source lacking that item. -/
theorem aggregate_phase_results_rows
    (mr : List (String × List (String × String))) :
    ((aggregate_phase2_results mr).map Phase2Row.trait =
        (List.insertionSort pyLeRel
          (firstKeys (allItemKeys mr))).filter (hasVotes mr) ∧
      (aggregate_phase2_results mr).length =
        (firstKeys (allItemKeys mr)).length -
          ((firstKeys (allItemKeys mr)).filter
            (fun t => !(hasVotes mr t))).length ∧
      ∀ row ∈ aggregate_phase2_results mr,
        row.model_votes =
          MODELS.map (fun m => (m, modelVote mr m row.trait))) ∧
    ((aggregate_phase3_results mr).map Phase3Row.umbrella =
        (List.insertionSort pyLeRel
          (firstKeys (allItemKeys mr))).filter (hasVotes mr) ∧
      (aggregate_phase3_results mr).length =
        (firstKeys (allItemKeys mr)).length -
          ((firstKeys (allItemKeys mr)).filter
            (fun t => !(hasVotes mr t))).length ∧
      ∀ row ∈ aggregate_phase3_results mr,
        row.model_votes =
          MODELS.map (fun m => (m, modelVote mr m row.umbrella))) := by
  have hmap2 : (aggregate_phase2_results mr).map Phase2Row.trait =
      (List.insertionSort pyLeRel
        (firstKeys (allItemKeys mr))).filter (hasVotes mr) :=
    filterMap_map_eq_filter _ _ _ (phase2Row_trait_eq mr) _
  have hmap3 : (aggregate_phase3_results mr).map Phase3Row.umbrella =
      (List.insertionSort pyLeRel
        (firstKeys (allItemKeys mr))).filter (hasVotes mr) :=
    filterMap_map_eq_filter _ _ _ (phase3Row_umbrella_eq mr) _
  have hpart := length_filter_partition (hasVotes mr) (firstKeys (allItemKeys mr))
  have hflen : ((List.insertionSort pyLeRel
      (firstKeys (allItemKeys mr))).filter (hasVotes mr)).length =
      ((firstKeys (allItemKeys mr)).filter (hasVotes mr)).length :=
    ((List.perm_insertionSort _ _).filter _).length_eq
  refine ⟨⟨hmap2, ?_, ?_⟩, hmap3, ?_, ?_⟩
  · have h1 : (aggregate_phase2_results mr).length =
        ((aggregate_phase2_results mr).map Phase2Row.trait).length :=
      (List.length_map _ _).symm
    rw [h1, hmap2, hflen]
    omega
  · intro row hrow
    obtain ⟨t, -, hsome⟩ := List.mem_filterMap.mp hrow
    obtain ⟨htr, hmv⟩ := phase2Row_some_elim hsome
    rw [htr]
    exact hmv
  · have h1 : (aggregate_phase3_results mr).length =
        ((aggregate_phase3_results mr).map Phase3Row.umbrella).length :=
      (List.length_map _ _).symm
    rw [h1, hmap3, hflen]
    omega
  · intro row hrow
    obtain ⟨t, -, hsome⟩ := List.mem_filterMap.mp hrow
    obtain ⟨htr, hmv⟩ := phase3Row_some_elim hsome
    rw [htr]
    exact hmv

/-- Claim C10: only votes from the five fixed panel sources are counted by the
aggregators, while the item-key union is built from every entry of the input
mapping: an item all of whose votes come from non-panel source identifiers is
silently omitted from the output.  Concretely, with a non-panel source
`"other"` voting on items `"x"` and `"y"` and only `"claude"` voting `"A"` on
`"x"`, the output has a single row, for `"x"`, whose consensus and agreement
ratio (`"1/1"`) reflect only claude's vote. -/
theorem aggregate_panel_sources_only
    (mr : List (String × List (String × String))) (t : String)
    (h : ∀ m ∈ MODELS, modelVote mr m t = none) :
    ((∀ row ∈ aggregate_phase2_results mr, row.trait ≠ t) ∧
      (∀ row ∈ aggregate_phase3_results mr, row.umbrella ≠ t)) ∧
    aggregate_phase2_results
        [("claude", [("x", "A")]), ("other", [("x", "B"), ("y", "B")])] =
      [⟨"x", "A", "1/1", "🔴",
        [("claude", some "A"), ("gpt5", none), ("gemini", none),
          ("deepseek", none), ("grok", none)]⟩] := by
  have hvf : votesFor mr t = [] := List.filterMap_eq_nil_iff.mpr h
  refine ⟨⟨?_, ?_⟩, rfl⟩
  · intro row hrow hteq
    obtain ⟨t2, -, hsome⟩ := List.mem_filterMap.mp hrow
    obtain ⟨htr, -⟩ := phase2Row_some_elim hsome
    have ht2 : t2 = t := by rw [← htr, hteq]
    rw [ht2, phase2Row_none mr t hvf] at hsome
    cases hsome
  · intro row hrow hteq
    obtain ⟨t2, -, hsome⟩ := List.mem_filterMap.mp hrow
    obtain ⟨htr, -⟩ := phase3Row_some_elim hsome
    have ht2 : t2 = t := by rw [← htr, hteq]
    rw [ht2, phase3Row_none mr t hvf] at hsome
    cases hsome

theorem aggregate_panel_sources_only_w :
    (∀ m ∈ MODELS,
        modelVote [("claude", [("x", "A")]),
          ("other", [("x", "B"), ("y", "B")])] m "y" = none) ∧
      (((∀ row ∈ aggregate_phase2_results
            [("claude", [("x", "A")]), ("other", [("x", "B"), ("y", "B")])],
          row.trait ≠ "y") ∧
        (∀ row ∈ aggregate_phase3_results
            [("claude", [("x", "A")]), ("other", [("x", "B"), ("y", "B")])],
          row.umbrella ≠ "y")) ∧
      aggregate_phase2_results
          [("claude", [("x", "A")]), ("other", [("x", "B"), ("y", "B")])] =
        [⟨"x", "A", "1/1", "🔴",
          [("claude", some "A"), ("gpt5", none), ("gemini", none),
            ("deepseek", none), ("grok", none)]⟩]) :=
  ⟨by decide, aggregate_panel_sources_only
    [("claude", [("x", "A")]), ("other", [("x", "B"), ("y", "B")])] "y"
    (by decide)⟩

/-- The summary statistics dict returned by `generate_summary_stats`, with
percentages as exact rationals. -/
structure SummaryStats where
  total : Nat
  green : Nat
  green_pct : ℚ
  yellow : Nat
  yellow_pct : ℚ
  red : Nat
  red_pct : ℚ
deriving DecidableEq

/-- Python `round(x, 1)` (one decimal place), modelled over `ℚ` by exact
rounding of `10 * x` to an integer. -/
def round1 (x : ℚ) : ℚ := (round (10 * x) : ℤ) / 10

/-- Function `generate_summary_stats(df, flag_column)` from `scripts/consensus.py`.
The DataFrame is modelled as the list of its rows together with the
flag-column projection, so that `len(df[df[flag_column] == g])` is the number
of rows whose flag equals `g`.  The `Except.error` branch carries the message
of the `ZeroDivisionError` raised by `green / total * 100` on an empty
DataFrame. -/
def generate_summary_stats {α : Type} (df : List α) (flag_col : α → String) :
    Except String SummaryStats :=
  let total := df.length
  let green := (df.filter (fun r => flag_col r == "🟢")).length
  let yellow := (df.filter (fun r => flag_col r == "🟡")).length
  let red := (df.filter (fun r => flag_col r == "🔴")).length
  if total = 0 then Except.error "division by zero"
  else Except.ok ⟨total,
    green, round1 ((green : ℚ) / (total : ℚ) * 100),
    yellow, round1 ((yellow : ℚ) / (total : ℚ) * 100),
    red, round1 ((red : ℚ) / (total : ℚ) * 100)⟩

/-- Claim C7: `generate_summary_stats` on an empty result collection fails
fast with the division-by-zero error; it never returns a statistics record
for zero rows. -/
theorem generate_summary_stats_empty_fails {α : Type} (flag_col : α → String) :
    generate_summary_stats ([] : List α) flag_col =
        Except.error "division by zero" ∧
      ∀ s : SummaryStats,
        generate_summary_stats ([] : List α) flag_col ≠ Except.ok s := by
  refine ⟨rfl, ?_⟩
  intro s h
  rw [show generate_summary_stats ([] : List α) flag_col =
    Except.error "division by zero" from rfl] at h
  cases h

theorem three_filter_length {α : Type} (flag_col : α → String) :
    ∀ df : List α,
      (∀ r ∈ df, flag_col r = "🟢" ∨ flag_col r = "🟡" ∨ flag_col r = "🔴") →
      (df.filter (fun r => flag_col r == "🟢")).length +
        (df.filter (fun r => flag_col r == "🟡")).length +
        (df.filter (fun r => flag_col r == "🔴")).length = df.length := by
  intro df
  induction df with
  | nil => intro h; rfl
  | cons a df ih =>
    intro h
    have hrest := ih (fun r hr => h r (List.mem_cons_of_mem a hr))
    rcases h a (List.mem_cons_self a df) with ha | ha | ha
    · rw [List.filter_cons_of_pos (by simp only [ha]; decide),
        List.filter_cons_of_neg (by simp only [ha]; decide),
        List.filter_cons_of_neg (by simp only [ha]; decide)]
      simp only [List.length_cons]
      omega
    · rw [List.filter_cons_of_neg (by simp only [ha]; decide),
        List.filter_cons_of_pos (by simp only [ha]; decide),
        List.filter_cons_of_neg (by simp only [ha]; decide)]
      simp only [List.length_cons]
      omega
    · rw [List.filter_cons_of_neg (by simp only [ha]; decide),
        List.filter_cons_of_neg (by simp only [ha]; decide),
        List.filter_cons_of_pos (by simp only [ha]; decide)]
      simp only [List.length_cons]
      omega

theorem abs_round1_sub (x : ℚ) : |round1 x - x| ≤ 1 / 20 := by
  have h := abs_sub_round (10 * x)
  rw [abs_sub_comm] at h
  have h2 : round1 x - x = (((round (10 * x) : ℤ) : ℚ) - 10 * x) / 10 := by
    rw [round1]
    ring
  rw [h2, abs_div]
  have h3 : |(10 : ℚ)| = 10 := by norm_num
  rw [h3]
  linarith

/-- Claim C8: on every non-empty result collection whose flags all lie among
the three tier glyphs, the three percentages returned by
`generate_summary_stats` (each rounded to one decimal place) sum to `100`
within a tolerance of `0.1` per tier, i.e. within `0.3` in total. -/
theorem generate_summary_stats_pcts_sum {α : Type} (df : List α)
    (flag_col : α → String) (hne : df ≠ [])
    (hflags : ∀ r ∈ df,
      flag_col r = "🟢" ∨ flag_col r = "🟡" ∨ flag_col r = "🔴") :
    ∃ s, generate_summary_stats df flag_col = Except.ok s ∧
      |s.green_pct + s.yellow_pct + s.red_pct - 100| ≤ 3 / 10 := by
  have htot : df.length ≠ 0 := fun h0 => hne (List.length_eq_zero.mp h0)
  have hdef : generate_summary_stats df flag_col = Except.ok
      ⟨df.length,
        (df.filter (fun r => flag_col r == "🟢")).length,
        round1 (((df.filter (fun r => flag_col r == "🟢")).length : ℚ) /
          (df.length : ℚ) * 100),
        (df.filter (fun r => flag_col r == "🟡")).length,
        round1 (((df.filter (fun r => flag_col r == "🟡")).length : ℚ) /
          (df.length : ℚ) * 100),
        (df.filter (fun r => flag_col r == "🔴")).length,
        round1 (((df.filter (fun r => flag_col r == "🔴")).length : ℚ) /
          (df.length : ℚ) * 100)⟩ := by
    simp only [generate_summary_stats, if_neg htot]
  refine ⟨_, hdef, ?_⟩
  have hgr := three_filter_length flag_col df hflags
  have hn : (df.length : ℚ) ≠ 0 := Nat.cast_ne_zero.mpr htot
  have hsum :
      ((df.filter (fun r => flag_col r == "🟢")).length : ℚ) /
          (df.length : ℚ) * 100 +
        ((df.filter (fun r => flag_col r == "🟡")).length : ℚ) /
          (df.length : ℚ) * 100 +
        ((df.filter (fun r => flag_col r == "🔴")).length : ℚ) /
          (df.length : ℚ) * 100 = 100 := by
    have hcast : ((df.filter (fun r => flag_col r == "🟢")).length : ℚ) +
        ((df.filter (fun r => flag_col r == "🟡")).length : ℚ) +
        ((df.filter (fun r => flag_col r == "🔴")).length : ℚ) =
        (df.length : ℚ) := by
      exact_mod_cast congrArg (fun n : Nat => (n : ℚ)) hgr
    field_simp
    linarith
  show |round1 _ + round1 _ + round1 _ - 100| ≤ 3 / 10
  set x := ((df.filter (fun r => flag_col r == "🟢")).length : ℚ) /
    (df.length : ℚ) * 100 with hxd
  set y := ((df.filter (fun r => flag_col r == "🟡")).length : ℚ) /
    (df.length : ℚ) * 100 with hyd
  set z := ((df.filter (fun r => flag_col r == "🔴")).length : ℚ) /
    (df.length : ℚ) * 100 with hzd
  have h1 := abs_round1_sub x
  have h2 := abs_round1_sub y
  have h3 := abs_round1_sub z
  have e : round1 x + round1 y + round1 z - 100 =
      (round1 x - x) + (round1 y - y) + (round1 z - z) := by
    linarith
  rw [e]
  calc |(round1 x - x) + (round1 y - y) + (round1 z - z)|
      ≤ |(round1 x - x) + (round1 y - y)| + |round1 z - z| := abs_add _ _
    _ ≤ |round1 x - x| + |round1 y - y| + |round1 z - z| := by
        linarith [abs_add (round1 x - x) (round1 y - y)]
    _ ≤ 3 / 10 := by linarith

theorem generate_summary_stats_pcts_sum_w :
    (["🟢", "🟡", "🔴"] ≠ ([] : List String)) ∧
      ∃ s, generate_summary_stats ["🟢", "🟡", "🔴"] (fun r => r) =
          Except.ok s ∧
        |s.green_pct + s.yellow_pct + s.red_pct - 100| ≤ 3 / 10 :=
  ⟨by decide, generate_summary_stats_pcts_sum ["🟢", "🟡", "🔴"] (fun r => r)
    (by decide) (by decide)⟩

end Consensus
